import Mathlib

/-!
Verification development for `packages/protocol/scripts/truffle/make-release-stabletoken.ts`,
the dependency-aware contract release orchestrator of this repository.

The script is embedded shallowly:
* The JS `Map<string, Address>` held by `ContractAddresses` is observed only through
  `get`/`has`/`set`, so it is embedded as an association list where `set` prepends
  (the most recent binding wins on lookup, exactly the observable `Map` behaviour).
* The mutable run state (address table, the `released` set, the `proposal` array) is
  threaded explicitly as a `RunState`.  The `released` set is kept as a list in
  insertion order (JS `Set` is insertion ordered and the script only appends), so the
  order of the list is the order in which units were marked released.
* A thrown JS exception is an `Option String` error component carried next to the
  state reached at the throw point (mutations performed before a throw persist,
  as they do in the script, where the run is then aborted by the top-level catch).
* External collaborators (the dependency graph, the compiled artifacts' ABIs, the
  execution backend producing deployment addresses, `web3.eth.abi.encodeFunctionCall`,
  the `CeloContractName` key set, `artifacts.require`) are parameters gathered in `Env`.
* The unguarded recursion of `release` over the dependency graph is given a fuel
  parameter standing for the JS call stack; exhausting it is the stack-overflow
  `RangeError` the script would hit on a cyclic graph.
-/

/-- JS `Map.get` / property lookup on a string-keyed map: the most recent binding wins. -/
def mapFind {α : Type} : List (String × α) → String → Option α
  | [], _ => none
  | (k, v) :: rest, key => if key = k then some v else mapFind rest key

/-- JS `Map.set`: later bindings shadow earlier ones.  The script never iterates a
map, so prepending is observationally equal to the in-place overwrite of `Map.set`. -/
def mapSet (m : List (String × String)) (k v : String) : List (String × String) :=
  (k, v) :: m

/-- Constant `NULL_ADDRESS` from `@celo/utils/lib/address`. -/
def NULL_ADDRESS : String := "0x0000000000000000000000000000000000000000"

/-- Constant `celoRegistryAddress` from `lib/registry-utils`: the fixed registry proxy address. -/
def celoRegistryAddress : String := "0x000000000000000000000000000000000000ce10"

/-- Function `eqAddress` from `@celo/utils/lib/address` (external): comparison of the two
addresses after normalization.  Addresses are opaque tokens in this embedding and
are taken as already canonically spelled, so normalization is the identity and the
comparison is plain string equality. -/
def eqAddress (a b : String) : Bool := a == b

/-- One entry of a contract ABI, as far as the script inspects it: `abi.type`,
`abi.name` and `abi.inputs` (the input type descriptors, abstracted to strings). -/
structure AbiEntry where
  type : String
  name : String
  inputs : List String
deriving Repr, DecidableEq

/-- One entry of `report.contracts[name].changes.major`; the script only reads `.type`. -/
structure MajorChange where
  type : String
deriving Repr, DecidableEq

/-- Record `report.contracts[name].changes`: the storage diff entries and the major changes.
Storage diff entries are abstracted to strings; the script only takes the length. -/
structure ASTChanges where
  storage : List String
  major : List MajorChange
deriving Repr, DecidableEq

/-- Record `report.contracts[name]`: the per-contract record of `ASTDetailedVersionedReport`. -/
structure ContractReport where
  changes : ASTChanges
deriving Repr, DecidableEq

/-- The `ASTDetailedVersionedReport`: `contracts` is the per-contract map; of
`libraries` the script only reads the key set (`Object.keys(report.libraries)`),
so just the keys are kept. -/
structure Report where
  contracts : List (String × ContractReport)
  libraries : List String
deriving Repr, DecidableEq

/-- Structure `ProposalTx` from the script.  An argument is an `Option String`: `some s` is the
JS string `s`, `none` is the JS value `undefined` (which the final hard-coded
transactions do put into `args`). -/
structure ProposalTx where
  contract : String
  function : String
  args : List (Option String)
  value : String
  description : Option String
deriving Repr, DecidableEq

/-- The mutable state of one orchestration run: the `ContractAddresses` map, the
`released` set (in insertion order) and the `proposal` array. -/
structure RunState where
  addresses : List (String × String)
  released : List String
  proposal : List ProposalTx
deriving Repr, DecidableEq

/-- The external collaborators of the script, fixed for the duration of a run. -/
structure Env where
  /-- Map `getCeloContractDependencies().get(name)`: the direct dependency list. -/
  deps : String → List String
  /-- The parsed backward-compatibility report. -/
  report : Report
  /-- Mapping `initializationData[name]`: caller-supplied initializer arguments
  (`none` when the key is absent, i.e. the JS value is `undefined`). -/
  initializationData : String → Option (List String)
  /-- The ABI of the compiled artifact for a unit (also the ABI of its deployed
  instance, which is what `deployImplementation` and `deployCoreContract` inspect). -/
  abiOf : String → List AbiEntry
  /-- Address produced by the execution backend for `Contract.new` of a unit. -/
  implAddrOf : String → String
  /-- Address produced by the execution backend for `Proxy.new` of a unit. -/
  proxyAddrOf : String → String
  /-- Encoder `web3.eth.abi.encodeFunctionCall abi args`: `none` models the encoder throwing
  on an argument shape mismatch, `some data` the encoded call data. -/
  encodeFunctionCall : AbiEntry → Option (List String) → Option String
  /-- Key set `Object.keys(CeloContractName)` from `lib/registry-utils`. -/
  celoContractNames : List String
  /-- Whether `artifacts.require name` succeeds (used by `isProxiedContract`). -/
  hasArtifact : String → Bool
  /-- The `--dry_run` flag. -/
  dryRun : Bool

/-- Method `ContractAddresses.create`: one registry lookup per contract name, skipping
null-address results, then an overlay of the trusted library mapping, which takes
precedence.  The parallel `Promise.all` lookups are independent and keyed by
distinct names, so a sequential fold produces the same observable map. -/
def ContractAddresses.create (contracts : List String) (registryLookup : String → String)
    (libraryAddresses : List (String × String)) : List (String × String) :=
  let addresses := contracts.foldl
    (fun m contract =>
      if eqAddress (registryLookup contract) NULL_ADDRESS then m
      else mapSet m contract (registryLookup contract))
    []
  libraryAddresses.foldl (fun m la => mapSet m la.1 la.2) addresses

/-- Method `ContractAddresses.get`: the stored address when present, otherwise the thrown
`Unable to find address for ...` error (the `has` guard of the source is exactly
the `some`/`none` split of the lookup). -/
def ContractAddresses.get (addresses : List (String × String)) (contract : String) :
    Except String String :=
  match mapFind addresses contract with
  | some address => Except.ok address
  | none => Except.error ("Unable to find address for " ++ contract)

/-- Method `ContractAddresses.set`: unconditional overwrite. -/
def ContractAddresses.set (addresses : List (String × String)) (contract address : String) :
    List (String × String) :=
  mapSet addresses contract address

/-- JS `String.prototype.endsWith`: character-level suffix test. -/
def strEndsWith (s suffix : String) : Bool :=
  List.isPrefixOf suffix.data.reverse s.data.reverse

/-- Predicate `isProxiedContract`: not itself a proxy, and a `...Proxy` artifact exists. -/
def isProxiedContract (env : Env) (contractName : String) : Bool :=
  if strEndsWith contractName "Proxy" then false
  else env.hasArtifact (contractName ++ "Proxy")

/-- Predicate `isCoreContract`: membership in the `CeloContractName` key set. -/
def isCoreContract (env : Env) (contractName : String) : Bool :=
  env.celoContractNames.contains contractName

/-- Function `deployImplementation`: deploys the implementation (at the registry address on a
dry run, the backend's fresh address otherwise) and then enforces the
`getVersionNumber` sanity check when `requireVersion` is set.  The `from` override
and the deployment transaction itself are backend effects with no further state. -/
def deployImplementation (env : Env) (contractName : String) (requireVersion : Bool) :
    Except String String :=
  let address := if env.dryRun then celoRegistryAddress else env.implAddrOf contractName
  let getVersionNumberAbi := (env.abiOf contractName).find?
    (fun abi => abi.type == "function" && abi.name == "getVersionNumber")
  if requireVersion && !getVersionNumberAbi.isSome then
    Except.error ("Contract " ++ contractName ++ " has changes but does not specify a version number")
  else
    Except.ok address

/-- The message of the error thrown by `deployProxy` for `Governance`. -/
def governanceProxyError : String :=
  "Storage incompatible changes to Governance are not yet supported"

/-- Function `deployProxy`: categorically refuses a new `Governance` proxy; otherwise deploys
the proxy (registry address on a dry run) and, when not a dry run, transfers its
ownership to the current `Governance` address — reading that address can itself
throw `Unable to find address for Governance`.  `artifacts.require` of the proxy
artifact is assumed to succeed (backend effect). -/
def deployProxy (env : Env) (addresses : List (String × String)) (contractName : String) :
    Except String String :=
  if contractName = "Governance" then
    Except.error governanceProxyError
  else
    let proxyAddress := if env.dryRun then celoRegistryAddress else env.proxyAddrOf contractName
    if env.dryRun then
      Except.ok proxyAddress
    else
      match ContractAddresses.get addresses "Governance" with
      | Except.error e => Except.error e
      | Except.ok _ => Except.ok proxyAddress

/-- Predicate `shouldDeployProxy`: non-empty storage diff, or a major change of type
`NewContract`.  The source indexes `report.contracts[contractName]` unconditionally;
its only caller guarantees the key is present, and the absent case (a JS `TypeError`
on reading `.changes` of `undefined`) is never reached, so it is rendered as `false`. -/
def shouldDeployProxy (report : Report) (contractName : String) : Bool :=
  match mapFind report.contracts contractName with
  | some contractReport =>
    let hasStorageChanges := contractReport.changes.storage.length > 0
    let isNewContract :=
      (contractReport.changes.major.find? (fun change => change.type == "NewContract")).isSome
    hasStorageChanges || isNewContract
  | none => false

/-- Rendering `JSON.stringify` of a string array, as it appears in the initializer error message. -/
def jsonStringifyList (l : List String) : String :=
  "[" ++ String.intercalate "," (l.map (fun x => "\"" ++ x ++ "\"")) ++ "]"

/-- Rendering `JSON.stringify` of the initializer arguments (`undefined` when the key was absent). -/
def jsonStringifyArgs : Option (List String) → String
  | none => "undefined"
  | some l => jsonStringifyList l

/-- The message of the error thrown when ABI-encoding the initializer call fails. -/
def initializeErrorMsg (contractName : String) (args : Option (List String))
    (inputs : List String) : String :=
  "Tried to initialize new implementation of " ++ contractName ++ " with args: "
    ++ jsonStringifyArgs args ++ ". Initialization ABI spec is: "
    ++ jsonStringifyList inputs ++ "."

/-- Function `deployCoreContract`: deploy the implementation, then either just queue a
`_setImplementation` on the existing proxy (report shows no storage changes and no
new-contract marker), or deploy a fresh proxy, record its address, queue the
`Registry.setAddressFor` entry and then the implementation-set entry — folded with
the encoded initializer call into a single `_setAndInitializeImplementation` entry
when the implementation's ABI exposes `initialize`. -/
def deployCoreContract (env : Env) (contractName : String) (s : RunState) :
    RunState × Option String :=
  match deployImplementation env contractName true with
  | Except.error e => (s, some e)
  | Except.ok implAddress =>
    let setImplementationTx : ProposalTx :=
      ⟨contractName ++ "Proxy", "_setImplementation", [some implAddress], "0", none⟩
    if !shouldDeployProxy env.report contractName then
      ({s with proposal := s.proposal ++ [setImplementationTx]}, none)
    else
      match deployProxy env s.addresses contractName with
      | Except.error e => (s, some e)
      | Except.ok proxyAddress =>
        let s₁ :=
          {s with addresses := ContractAddresses.set s.addresses contractName proxyAddress}
        let s₂ := {s₁ with proposal := s₁.proposal ++
          [⟨"Registry", "setAddressFor", [some contractName, some proxyAddress], "0",
            some ("Registry: " ++ contractName ++ " -> " ++ proxyAddress)⟩]}
        match (env.abiOf contractName).find?
            (fun abi => abi.type == "function" && abi.name == "initialize") with
        | none => ({s₂ with proposal := s₂.proposal ++ [setImplementationTx]}, none)
        | some initializeAbi =>
          match env.encodeFunctionCall initializeAbi (env.initializationData contractName) with
          | none =>
            (s₂, some (initializeErrorMsg contractName (env.initializationData contractName)
              initializeAbi.inputs))
          | some callData =>
            ({s₂ with proposal := s₂.proposal ++
              [⟨contractName ++ "Proxy", "_setAndInitializeImplementation",
                [some implAddress, some callData], "0", none⟩]}, none)

/-- Function `deployLibrary`: deploy with the version check disabled and record the address. -/
def deployLibrary (env : Env) (contractName : String) (s : RunState) :
    RunState × Option String :=
  match deployImplementation env contractName false with
  | Except.error e => (s, some e)
  | Except.ok address =>
    ({s with addresses := ContractAddresses.set s.addresses contractName address}, none)

/-- Step 2 of `release`: `contractArtifact.link(d, addresses.get(d))` for every
dependency.  Linking itself is a backend effect; what is observable here is that
`addresses.get` throws on a missing dependency address. -/
def linkAll (addresses : List (String × String)) : List String → Option String
  | [] => none
  | d :: ds =>
    match ContractAddresses.get addresses d with
    | Except.error e => some e
    | Except.ok _ => linkAll addresses ds

/-- Step 3 of `release`: core contracts present in `report.contracts` go through
`deployCoreContract`, names present in `report.libraries` through `deployLibrary`,
anything else is left alone. -/
def releaseDeployStep (env : Env) (contractName : String) (s : RunState) :
    RunState × Option String :=
  if (mapFind env.report.contracts contractName).isSome then
    deployCoreContract env contractName s
  else if contractName ∈ env.report.libraries then
    deployLibrary env contractName s
  else
    (s, none)

/-- The sequential `for (const dependency of contractDependencies) await release(...)`
loop: runs `rel` on each name in order, stopping at the first thrown error. -/
def releaseList (rel : String → RunState → RunState × Option String) :
    List String → RunState → RunState × Option String
  | [], s => (s, none)
  | d :: ds, s =>
    match rel d s with
    | (s₁, some e) => (s₁, some e)
    | (s₁, none) => releaseList rel ds s₁

/-- The JS `RangeError` raised when the unguarded recursion of `release` exhausts
the call stack (which is what the fuel parameter stands for). -/
def stackOverflowError : String := "Maximum call stack size exceeded"

/-- Function `release`: skip if already released; release every dependency first; link
against the dependencies' current addresses; deploy as dictated by the report; mark
released.  The fuel bounds the recursion depth exactly as the JS call stack does. -/
def release (env : Env) : Nat → String → RunState → RunState × Option String
  | 0, _, s => (s, some stackOverflowError)
  | fuel + 1, contractName, s =>
    if contractName ∈ s.released then
      (s, none)
    else
      match releaseList (fun d t => release env fuel d t) (env.deps contractName) s with
      | (s₁, some e) => (s₁, some e)
      | (s₁, none) =>
        match linkAll s₁.addresses (env.deps contractName) with
        | some e => (s₁, some e)
        | none =>
          match releaseDeployStep env contractName s₁ with
          | (s₂, some e) => (s₂, some e)
          | (s₂, none) => ({s₂ with released := s₂.released ++ [contractName]}, none)

/-- The driver loop of `module.exports`: release every artifact name that is both a
core contract and individually proxied. -/
def traverseContracts (env : Env) (fuel : Nat) :
    List String → RunState → RunState × Option String
  | [], s => (s, none)
  | contractName :: rest, s =>
    if isCoreContract env contractName && isProxiedContract env contractName then
      match release env fuel contractName s with
      | (s₁, some e) => (s₁, some e)
      | (s₁, none) => traverseContracts env fuel rest s₁
    else
      traverseContracts env fuel rest s

/-- Expression `addresses['Exchange' + fiat_ticket]` in `module.exports` is a plain property
access on the `ContractAddresses` class instance, not a call to its `get` method;
`ExchangeGBP` is not a property of the instance (those are `addresses`, `get`,
`set`), so the access evaluates to `undefined`. -/
def contractAddressesIndex (_s : RunState) (_key : String) : Option String := none

/-- Step 5 of `module.exports`: the four transactions pushed after the traversal. -/
def stableTokenExtraTxs (s : RunState) : List ProposalTx :=
  let fiatTicket := "GBP"
  let exchangeAddress := contractAddressesIndex s ("Exchange" ++ fiatTicket)
  let stableTokenAddress := contractAddressesIndex s ("Exchange" ++ fiatTicket)
  [⟨"SortedOracles", "addOracle", [stableTokenAddress, some "TODO"], "0", none⟩,
   ⟨"GoldToken", "transfer", [some "TODO"], "0", none⟩,
   ⟨"Reserve", "addExchangeSpender", [exchangeAddress], "0", none⟩,
   ⟨"Figure out how to get exchange address here", "addOracle", [some "0"], "0", none⟩]

/-- The same four transactions, written out as the fixed list they always are. -/
def stableTokenFixedSuffix : List ProposalTx :=
  [⟨"SortedOracles", "addOracle", [none, some "TODO"], "0", none⟩,
   ⟨"GoldToken", "transfer", [some "TODO"], "0", none⟩,
   ⟨"Reserve", "addExchangeSpender", [none], "0", none⟩,
   ⟨"Figure out how to get exchange address here", "addOracle", [some "0"], "0", none⟩]

/-- Appending the fixed suffix to the proposal (the tail of `module.exports`). -/
def finalizeRun (s : RunState) : RunState :=
  {s with proposal := s.proposal ++ stableTokenExtraTxs s}

/-- The whole `module.exports` run: seed the address table, traverse, append the
fixed suffix.  An error thrown anywhere aborts before the suffix is appended
(the proposal file is then never written). -/
def runRelease (env : Env) (fuel : Nat) (contracts : List String)
    (registryLookup : String → String) (libraryMapping : List (String × String)) :
    RunState × Option String :=
  let addresses := ContractAddresses.create contracts registryLookup libraryMapping
  match traverseContracts env fuel contracts ⟨addresses, [], []⟩ with
  | (s, some e) => (s, some e)
  | (s, none) => (finalizeRun s, none)

/-- Auxiliary order predicate, on the reversed list: every element's direct
dependencies all occur in the (chronologically earlier) tail. -/
def goodRevB (env : Env) : List String → Bool
  | [] => true
  | n :: rest => (env.deps n).all (fun d => decide (d ∈ rest)) && goodRevB env rest

/-- The release-order invariant: reading the released list in insertion order,
every dependency of a unit occurs strictly before the unit itself. -/
def goodOrder (env : Env) (l : List String) : Bool := goodRevB env l.reverse

/-- A small concrete environment exercising the script: core contract `A` (flagged
in the report with a storage change, with an initializer) depending on library `B`,
with `Governance` seeded in the address table by the driver. -/
def sampleEnv : Env := {
  deps := fun n => if n = "A" then ["B"] else [],
  report := ⟨[("A", ⟨⟨["slot0"], []⟩⟩)], ["B"]⟩,
  initializationData := fun _ => some ["0x1"],
  abiOf := fun n =>
    if n = "A" then
      [⟨"function", "getVersionNumber", []⟩, ⟨"function", "initialize", ["address"]⟩]
    else [⟨"function", "getVersionNumber", []⟩],
  implAddrOf := fun n => "0xIMPL" ++ n,
  proxyAddrOf := fun n => "0xPROXY" ++ n,
  encodeFunctionCall := fun _ args => args.map (fun l => String.intercalate "," l),
  celoContractNames := ["A", "Governance"],
  hasArtifact := fun _ => true,
  dryRun := false }

/-- A start state with the `Governance` address seeded, as after the driver's seeding. -/
def sampleState : RunState := ⟨[("Governance", "0xGOV")], [], []⟩

/-! ## Basic lemmas about the map embedding -/

theorem mapFind_mapSet (m : List (String × String)) (k v c : String) :
    mapFind (mapSet m k v) c = if c = k then some v else mapFind m c := rfl

theorem mapFind_eq_none_iff {α : Type} :
    ∀ (l : List (String × α)) (c : String), mapFind l c = none ↔ ∀ p ∈ l, p.1 ≠ c := by
  intro l c
  induction l with
  | nil => simp [mapFind]
  | cons p rest ih =>
    rcases p with ⟨k, v⟩
    by_cases h : c = k
    · subst h
      simp [mapFind]
    · simp [mapFind, h, ih, Ne.symm h]

/-! ## Lemmas about the seeding folds of `ContractAddresses.create` -/

theorem libFold_no_key (c : String) :
    ∀ (lib : List (String × String)) (m : List (String × String)), (∀ p ∈ lib, p.1 ≠ c) →
      mapFind (lib.foldl (fun m la => mapSet m la.1 la.2) m) c = mapFind m c := by
  intro lib
  induction lib with
  | nil => intro m _; rfl
  | cons la rest ih =>
    intro m h
    simp only [List.foldl_cons]
    rw [ih _ (fun p hp => h p (List.mem_cons_of_mem _ hp))]
    rw [mapFind_mapSet]
    have hne : c ≠ la.1 := fun hc => (h la (List.mem_cons_self _ _)) hc.symm
    simp [hne]

theorem libFold_key (c a : String) :
    ∀ (lib : List (String × String)) (m : List (String × String)),
      (lib.map Prod.fst).Nodup → mapFind lib c = some a →
      mapFind (lib.foldl (fun m la => mapSet m la.1 la.2) m) c = some a := by
  intro lib
  induction lib with
  | nil => intro m _ h; simp [mapFind] at h
  | cons la rest ih =>
    intro m hnd h
    rcases la with ⟨k, v⟩
    simp only [List.foldl_cons]
    by_cases hc : c = k
    · subst hc
      have hv : v = a := by simpa [mapFind] using h
      subst hv
      have hrest : ∀ p ∈ rest, p.1 ≠ c := by
        intro p hp hpc
        have : c ∈ rest.map Prod.fst := by
          exact List.mem_map.mpr ⟨p, hp, hpc⟩
        simp only [List.map_cons, List.nodup_cons] at hnd
        exact hnd.1 this
      rw [libFold_no_key c rest _ hrest, mapFind_mapSet]
      simp
    · have h' : mapFind rest c = some a := by simpa [mapFind, hc] using h
      have hnd' : (rest.map Prod.fst).Nodup := by
        simp only [List.map_cons, List.nodup_cons] at hnd
        exact hnd.2
      exact ih _ hnd' h'

theorem regFold_mem (reg : String → String) (c : String)
    (hnull : eqAddress (reg c) NULL_ADDRESS = false) :
    ∀ (contracts : List String) (m : List (String × String)),
      (c ∈ contracts ∨ mapFind m c = some (reg c)) →
      mapFind (contracts.foldl
        (fun m contract =>
          if eqAddress (reg contract) NULL_ADDRESS then m
          else mapSet m contract (reg contract)) m) c = some (reg c) := by
  intro contracts
  induction contracts with
  | nil =>
    intro m h
    rcases h with h | h
    · simp at h
    · simpa using h
  | cons d rest ih =>
    intro m h
    simp only [List.foldl_cons]
    by_cases hc : c = d
    · subst hc
      rw [hnull]
      simp only [if_false, Bool.false_eq_true]
      exact ih _ (Or.inr (by rw [mapFind_mapSet]; simp))
    · have hfind : mapFind (if eqAddress (reg d) NULL_ADDRESS then m
          else mapSet m d (reg d)) c = mapFind m c := by
        split
        · rfl
        · rw [mapFind_mapSet]; simp [hc]
      rcases h with h | h
      · rcases List.mem_cons.mp h with h' | h'
        · exact absurd h' hc
        · exact ih _ (Or.inl h')
      · exact ih _ (Or.inr (by rw [hfind]; exact h))

theorem regFold_null (reg : String → String) (c : String)
    (hnull : eqAddress (reg c) NULL_ADDRESS = true) :
    ∀ (contracts : List String) (m : List (String × String)),
      mapFind (contracts.foldl
        (fun m contract =>
          if eqAddress (reg contract) NULL_ADDRESS then m
          else mapSet m contract (reg contract)) m) c = mapFind m c := by
  intro contracts
  induction contracts with
  | nil => intro m; rfl
  | cons d rest ih =>
    intro m
    simp only [List.foldl_cons]
    rw [ih]
    by_cases hc : c = d
    · subst hc
      rw [hnull]
      simp
    · split
      · rfl
      · rw [mapFind_mapSet]; simp [hc]

/-- C7: after seeding, every contract name whose registry lookup returned a
non-null address (and which the library mapping does not override) is mapped to
that address; every name with a null lookup and no library entry is absent; and
every name of the library mapping is mapped to the mapping's value, overriding
any registry-reported value. -/
theorem contractAddresses_create_spec (contracts : List String) (reg : String → String)
    (lib : List (String × String)) (c : String) :
    (c ∈ contracts → eqAddress (reg c) NULL_ADDRESS = false → mapFind lib c = none →
       mapFind (ContractAddresses.create contracts reg lib) c = some (reg c))
    ∧ (eqAddress (reg c) NULL_ADDRESS = true → mapFind lib c = none →
       mapFind (ContractAddresses.create contracts reg lib) c = none)
    ∧ ((lib.map Prod.fst).Nodup → ∀ a, mapFind lib c = some a →
       mapFind (ContractAddresses.create contracts reg lib) c = some a) := by
  unfold ContractAddresses.create
  refine ⟨?_, ?_, ?_⟩
  · intro hmem hnull hlib
    rw [libFold_no_key c lib _ ((mapFind_eq_none_iff lib c).mp hlib)]
    exact regFold_mem reg c hnull contracts [] (Or.inl hmem)
  · intro hnull hlib
    rw [libFold_no_key c lib _ ((mapFind_eq_none_iff lib c).mp hlib)]
    rw [regFold_null reg c hnull contracts []]
    rfl
  · intro hnd a hlib
    exact libFold_key c a lib _ hnd hlib

/-- Witness for C7 at a concrete seeding: a non-null lookup is kept, a null lookup
is skipped, and a library entry overrides the registry. -/
theorem contractAddresses_create_spec_witness :
    mapFind (ContractAddresses.create ["A", "B", "L"]
      (fun n => if n = "A" then "0xAA" else if n = "L" then "0xREG" else NULL_ADDRESS)
      [("L", "0xLIB")]) "A" = some "0xAA"
    ∧ mapFind (ContractAddresses.create ["A", "B", "L"]
      (fun n => if n = "A" then "0xAA" else if n = "L" then "0xREG" else NULL_ADDRESS)
      [("L", "0xLIB")]) "B" = none
    ∧ mapFind (ContractAddresses.create ["A", "B", "L"]
      (fun n => if n = "A" then "0xAA" else if n = "L" then "0xREG" else NULL_ADDRESS)
      [("L", "0xLIB")]) "L" = some "0xLIB" := by
  refine ⟨?_, ?_, ?_⟩
  · exact (contractAddresses_create_spec _ _ _ "A").1 (by decide) (by decide) (by decide)
  · exact (contractAddresses_create_spec _ _ _ "B").2.1 (by decide) (by decide)
  · exact (contractAddresses_create_spec _ _ _ "L").2.2 (by decide) "0xLIB" (by decide)

/-- C8: `ContractAddresses.get` returns the stored address when an entry exists and
fails with the `Unable to find address` error when none does — in particular it
never returns a default or zero address for an absent name. -/
theorem contractAddresses_get_spec (addresses : List (String × String)) (contract : String) :
    (∀ a, mapFind addresses contract = some a →
       ContractAddresses.get addresses contract = Except.ok a)
    ∧ (mapFind addresses contract = none →
       ContractAddresses.get addresses contract =
         Except.error ("Unable to find address for " ++ contract)) := by
  constructor
  · intro a h
    simp [ContractAddresses.get, h]
  · intro h
    simp [ContractAddresses.get, h]

/-- Witness for C8: a present name yields its stored address, an absent one the error. -/
theorem contractAddresses_get_spec_witness :
    ContractAddresses.get [("A", "0x1")] "A" = Except.ok "0x1"
    ∧ ContractAddresses.get [("A", "0x1")] "B" =
        Except.error ("Unable to find address for " ++ "B") :=
  ⟨(contractAddresses_get_spec [("A", "0x1")] "A").1 "0x1" (by decide),
   (contractAddresses_get_spec [("A", "0x1")] "B").2 (by decide)⟩

/-- C9: a core-contract implementation whose ABI exposes no `getVersionNumber`
function makes the deployment fail with the fatal error naming the contract, while
library deployments (version check disabled) never fail this check. -/
theorem version_number_check (env : Env) (n : String) (s : RunState) :
    ((env.abiOf n).find?
        (fun abi => abi.type == "function" && abi.name == "getVersionNumber") = none →
      deployCoreContract env n s =
        (s, some ("Contract " ++ n ++ " has changes but does not specify a version number")))
    ∧ (deployLibrary env n s).2 = none := by
  constructor
  · intro h
    unfold deployCoreContract deployImplementation
    simp [h]
  · unfold deployLibrary deployImplementation
    simp

/-- Witness for C9: a contract with an empty ABI fails the version check as a core
contract but deploys fine as a library. -/
theorem version_number_check_witness :
    deployCoreContract
      { deps := fun _ => [], report := ⟨[], []⟩, initializationData := fun _ => none,
        abiOf := fun _ => [], implAddrOf := fun _ => "0xI", proxyAddrOf := fun _ => "0xP",
        encodeFunctionCall := fun _ _ => none, celoContractNames := [],
        hasArtifact := fun _ => true, dryRun := false } "X" ⟨[], [], []⟩ =
      (⟨[], [], []⟩, some ("Contract " ++ "X" ++ " has changes but does not specify a version number"))
    ∧ (deployLibrary
      { deps := fun _ => [], report := ⟨[], []⟩, initializationData := fun _ => none,
        abiOf := fun _ => [], implAddrOf := fun _ => "0xI", proxyAddrOf := fun _ => "0xP",
        encodeFunctionCall := fun _ _ => none, celoContractNames := [],
        hasArtifact := fun _ => true, dryRun := false } "X" ⟨[], [], []⟩).2 = none :=
  ⟨(version_number_check _ "X" _).1 (by decide), (version_number_check _ "X" _).2⟩

/-! ## Lemmas about the core-contract deployment decision -/

theorem exceptEqCases (x : Except String String) :
    (∃ e, x = Except.error e) ∨ (∃ a, x = Except.ok a) := by
  cases x with
  | error e => exact Or.inl ⟨e, rfl⟩
  | ok a => exact Or.inr ⟨a, rfl⟩

theorem shouldDeployProxy_mapFind_isSome (r : Report) (n : String)
    (h : shouldDeployProxy r n = true) : (mapFind r.contracts n).isSome := by
  unfold shouldDeployProxy at h
  rcases hm : mapFind r.contracts n with _ | cr
  · rw [hm] at h
    simp at h
  · simp

theorem deployProxy_governance (env : Env) (addresses : List (String × String)) :
    deployProxy env addresses "Governance" = Except.error governanceProxyError := by
  simp [deployProxy]

theorem deployCoreContract_governance (env : Env) (s : RunState)
    (hg : shouldDeployProxy env.report "Governance" = true) :
    ∃ e, deployCoreContract env "Governance" s = (s, some e) := by
  unfold deployCoreContract
  rcases hi : deployImplementation env "Governance" true with e | a
  · exact ⟨e, rfl⟩
  · refine ⟨governanceProxyError, ?_⟩
    simp [hg, deployProxy_governance]

theorem deployCoreContract_released (env : Env) (n : String) (s : RunState) :
    ((deployCoreContract env n s).1).released = s.released := by
  unfold deployCoreContract
  repeat' split
  all_goals rfl

theorem deployLibrary_released (env : Env) (n : String) (s : RunState) :
    ((deployLibrary env n s).1).released = s.released := by
  unfold deployLibrary
  split
  all_goals rfl

theorem deployLibrary_proposal (env : Env) (n : String) (s : RunState) :
    ((deployLibrary env n s).1).proposal = s.proposal := by
  unfold deployLibrary
  split
  all_goals rfl

theorem releaseDeployStep_released (env : Env) (n : String) (s : RunState) :
    ((releaseDeployStep env n s).1).released = s.released := by
  unfold releaseDeployStep
  split
  · exact deployCoreContract_released env n s
  · split
    · exact deployLibrary_released env n s
    · rfl

/-- C1 (amended): whenever the report entry for `Governance` requires a proxy
deployment (non-empty storage diff or a `NewContract` marker), the core-contract
deployment decision for `Governance` fails with a fatal error, leaving the run
state unchanged. -/
theorem governance_core_deployment_guard (env : Env) (s : RunState)
    (h : shouldDeployProxy env.report "Governance" = true) :
    ∃ e, deployCoreContract env "Governance" s = (s, some e) :=
  deployCoreContract_governance env s h

/-- Witness for C1 (amended) at a concrete report flagging `Governance` with a
storage change. -/
theorem governance_core_deployment_guard_witness :
    ∃ e, deployCoreContract
      {sampleEnv with report := ⟨[("Governance", ⟨⟨["slotG"], []⟩⟩)], []⟩}
      "Governance" sampleState = (sampleState, some e) :=
  governance_core_deployment_guard _ sampleState (by decide)

/-- C1 counterexample: the claim asserts the decision fails for `Governance`
regardless of the report entry, even with no storage changes and no `NewContract`
marker — but on exactly that entry the decision succeeds (no error) and appends a
`_setImplementation` entry instead. -/
theorem governance_core_deployment_counterexample :
    mapFind ({sampleEnv with
        report := ⟨[("Governance", ⟨⟨[], []⟩⟩)], []⟩} : Env).report.contracts "Governance"
      = some ⟨⟨[], []⟩⟩
    ∧ (deployCoreContract {sampleEnv with report := ⟨[("Governance", ⟨⟨[], []⟩⟩)], []⟩}
        "Governance" sampleState).2 = none
    ∧ ((deployCoreContract {sampleEnv with report := ⟨[("Governance", ⟨⟨[], []⟩⟩)], []⟩}
        "Governance" sampleState).1).proposal =
      [⟨"GovernanceProxy", "_setImplementation", [some "0xIMPLGovernance"], "0", none⟩] := by
  decide

/-- C5: under a successful core-contract deployment decision: with an empty storage
diff and no `NewContract` marker, exactly one proposal entry is appended — the
`_setImplementation` call on the unit's proxy with the new implementation address
(the spec names this function `setImplementation`); otherwise exactly one
`Registry.setAddressFor` entry is appended followed by exactly one
implementation-set entry, which is either a `_setImplementation` or a
`_setAndInitializeImplementation` call, never both. -/
theorem deployCoreContract_branch_shape (env : Env) (n : String) (s : RunState)
    (h : (deployCoreContract env n s).2 = none) :
    (shouldDeployProxy env.report n = false →
      ∃ a, ((deployCoreContract env n s).1).proposal =
        s.proposal ++ [⟨n ++ "Proxy", "_setImplementation", [some a], "0", none⟩])
    ∧ (shouldDeployProxy env.report n = true →
      ∃ pa implTx, ((deployCoreContract env n s).1).proposal =
          s.proposal ++ [⟨"Registry", "setAddressFor", [some n, some pa], "0",
            some ("Registry: " ++ n ++ " -> " ++ pa)⟩, implTx]
        ∧ implTx.contract = n ++ "Proxy"
        ∧ ((∃ a, implTx.function = "_setImplementation" ∧ implTx.args = [some a])
           ∨ (∃ a cd, implTx.function = "_setAndInitializeImplementation"
              ∧ implTx.args = [some a, some cd]))) := by
  rcases exceptEqCases (deployImplementation env n true) with ⟨e, hi⟩ | ⟨a, hi⟩
  · simp [deployCoreContract, hi] at h
  · constructor
    · intro hp
      refine ⟨a, ?_⟩
      simp [deployCoreContract, hi, hp]
    · intro hp
      rcases exceptEqCases (deployProxy env s.addresses n) with ⟨e, hd⟩ | ⟨pa, hd⟩
      · simp [deployCoreContract, hi, hp, hd] at h
      · rcases Option.eq_none_or_eq_some ((env.abiOf n).find?
            (fun abi => abi.type == "function" && abi.name == "initialize")) with hf | ⟨iAbi, hf⟩
        · refine ⟨pa, ⟨n ++ "Proxy", "_setImplementation", [some a], "0", none⟩, ?_, rfl,
            Or.inl ⟨a, rfl, rfl⟩⟩
          simp [deployCoreContract, hi, hp, hd, hf]
        · rcases Option.eq_none_or_eq_some
              (env.encodeFunctionCall iAbi (env.initializationData n)) with he | ⟨cd, he⟩
          · simp [deployCoreContract, hi, hp, hd, hf, he] at h
          · refine ⟨pa, ⟨n ++ "Proxy", "_setAndInitializeImplementation",
              [some a, some cd], "0", none⟩, ?_, rfl, Or.inr ⟨a, cd, rfl, rfl⟩⟩
            simp [deployCoreContract, hi, hp, hd, hf, he]

/-- Witness for C5: both branches at concrete inputs — an unflagged-storage entry
(`B0` with empty diff) appends the single `_setImplementation` entry, and the
flagged entry `A` appends the `Registry.setAddressFor` entry followed by the
(combined) implementation-set entry. -/
theorem deployCoreContract_branch_shape_witness :
    (∃ a, ((deployCoreContract
        {sampleEnv with report := ⟨[("A", ⟨⟨[], []⟩⟩)], []⟩} "A" sampleState).1).proposal =
      sampleState.proposal ++ [⟨"A" ++ "Proxy", "_setImplementation", [some a], "0", none⟩])
    ∧ (∃ pa implTx, ((deployCoreContract sampleEnv "A" sampleState).1).proposal =
          sampleState.proposal ++ [⟨"Registry", "setAddressFor", [some "A", some pa], "0",
            some ("Registry: " ++ "A" ++ " -> " ++ pa)⟩, implTx]
        ∧ implTx.contract = "A" ++ "Proxy"
        ∧ ((∃ a, implTx.function = "_setImplementation" ∧ implTx.args = [some a])
           ∨ (∃ a cd, implTx.function = "_setAndInitializeImplementation"
              ∧ implTx.args = [some a, some cd]))) :=
  ⟨(deployCoreContract_branch_shape _ "A" sampleState (by decide)).1 (by decide),
   (deployCoreContract_branch_shape sampleEnv "A" sampleState (by decide)).2 (by decide)⟩

/-- C6 (amended): when the proxy-deployment branch is taken (storage changes or a
`NewContract` marker) and the new implementation's ABI exposes an `initialize`
function, a successful decision folds the implementation-set call and the encoded
initializer call into one single `_setAndInitializeImplementation` proposal entry
with argument list `[newImplementationAddress, encodedInitData]` — never two
separate entries — and an ABI-encoding failure is a fatal error, which carries the
descriptive message when it is the step that aborts the decision. -/
theorem deployCoreContract_initializer_atomic (env : Env) (n : String) (s : RunState)
    (iAbi : AbiEntry) (hp : shouldDeployProxy env.report n = true)
    (hf : (env.abiOf n).find?
      (fun abi => abi.type == "function" && abi.name == "initialize") = some iAbi) :
    ((deployCoreContract env n s).2 = none →
      ∃ a pa cd, env.encodeFunctionCall iAbi (env.initializationData n) = some cd
        ∧ ((deployCoreContract env n s).1).proposal =
          s.proposal ++ [⟨"Registry", "setAddressFor", [some n, some pa], "0",
            some ("Registry: " ++ n ++ " -> " ++ pa)⟩,
            ⟨n ++ "Proxy", "_setAndInitializeImplementation", [some a, some cd], "0", none⟩])
    ∧ (env.encodeFunctionCall iAbi (env.initializationData n) = none →
      (deployCoreContract env n s).2 ≠ none)
    ∧ (∀ a pa, env.encodeFunctionCall iAbi (env.initializationData n) = none →
      deployImplementation env n true = Except.ok a →
      deployProxy env s.addresses n = Except.ok pa →
      (deployCoreContract env n s).2 =
        some (initializeErrorMsg n (env.initializationData n) iAbi.inputs)) := by
  refine ⟨?_, ?_, ?_⟩
  · intro h
    rcases exceptEqCases (deployImplementation env n true) with ⟨e, hi⟩ | ⟨a, hi⟩
    · simp [deployCoreContract, hi] at h
    · rcases exceptEqCases (deployProxy env s.addresses n) with ⟨e, hd⟩ | ⟨pa, hd⟩
      · simp [deployCoreContract, hi, hp, hd] at h
      · rcases Option.eq_none_or_eq_some
            (env.encodeFunctionCall iAbi (env.initializationData n)) with he | ⟨cd, he⟩
        · simp [deployCoreContract, hi, hp, hd, hf, he] at h
        · refine ⟨a, pa, cd, he, ?_⟩
          simp [deployCoreContract, hi, hp, hd, hf, he]
  · intro he h
    rcases exceptEqCases (deployImplementation env n true) with ⟨e, hi⟩ | ⟨a, hi⟩
    · simp [deployCoreContract, hi] at h
    · rcases exceptEqCases (deployProxy env s.addresses n) with ⟨e, hd⟩ | ⟨pa, hd⟩
      · simp [deployCoreContract, hi, hp, hd] at h
      · simp [deployCoreContract, hi, hp, hd, hf, he] at h
  · intro a pa he hi hd
    simp [deployCoreContract, hi, hp, hd, hf, he]

/-- Witness for C6 (amended): at the concrete flagged contract `A`, the successful
decision appends the single combined entry; with a failing encoder the decision
aborts with the descriptive error. -/
theorem deployCoreContract_initializer_atomic_witness :
    (∃ a pa cd,
      sampleEnv.encodeFunctionCall ⟨"function", "initialize", ["address"]⟩
        (sampleEnv.initializationData "A") = some cd
      ∧ ((deployCoreContract sampleEnv "A" sampleState).1).proposal =
        sampleState.proposal ++ [⟨"Registry", "setAddressFor", [some "A", some pa], "0",
          some ("Registry: " ++ "A" ++ " -> " ++ pa)⟩,
          ⟨"A" ++ "Proxy", "_setAndInitializeImplementation", [some a, some cd], "0", none⟩])
    ∧ (deployCoreContract {sampleEnv with encodeFunctionCall := fun _ _ => none}
        "A" sampleState).2 ≠ none :=
  ⟨(deployCoreContract_initializer_atomic sampleEnv "A" sampleState
      ⟨"function", "initialize", ["address"]⟩ (by decide) (by decide)).1 (by decide),
   (deployCoreContract_initializer_atomic {sampleEnv with encodeFunctionCall := fun _ _ => none}
      "A" sampleState ⟨"function", "initialize", ["address"]⟩ (by decide) (by decide)).2.1 rfl⟩

/-- C6 counterexample: the claim asserts that whenever the implementation's ABI
exposes an initializer, the implementation-set entry is the combined
set-and-initialize variant with `[newImplementationAddress, encodedInitData]` — but
when the report entry shows no storage changes and no `NewContract` marker the
decision appends a plain `_setImplementation` entry with one argument even though
`initialize` is in the ABI. -/
theorem deployCoreContract_initializer_counterexample :
    (({sampleEnv with report := ⟨[("A", ⟨⟨[], []⟩⟩)], []⟩} : Env).abiOf "A").find?
        (fun abi => abi.type == "function" && abi.name == "initialize") =
      some ⟨"function", "initialize", ["address"]⟩
    ∧ (deployCoreContract {sampleEnv with report := ⟨[("A", ⟨⟨[], []⟩⟩)], []⟩}
        "A" sampleState).2 = none
    ∧ ((deployCoreContract {sampleEnv with report := ⟨[("A", ⟨⟨[], []⟩⟩)], []⟩}
        "A" sampleState).1).proposal =
      [⟨"AProxy", "_setImplementation", [some "0xIMPLA"], "0", none⟩] := by
  decide

/-! ## Lemmas about the recursive release traversal -/

theorem releaseList_released_ext
    (rel : String → RunState → RunState × Option String)
    (hrel : ∀ d t, ∃ u, ((rel d t).1).released = t.released ++ u) :
    ∀ (l : List String) (s : RunState),
      ∃ u, ((releaseList rel l s).1).released = s.released ++ u := by
  intro l
  induction l with
  | nil => intro s; exact ⟨[], by simp [releaseList]⟩
  | cons d ds ih =>
    intro s
    obtain ⟨u₁, hu₁⟩ := hrel d s
    rcases hm : rel d s with ⟨s₁, e₁⟩
    simp only [hm] at hu₁
    cases e₁ with
    | some e => exact ⟨u₁, by simp [releaseList, hm, hu₁]⟩
    | none =>
      obtain ⟨u₂, hu₂⟩ := ih s₁
      refine ⟨u₁ ++ u₂, ?_⟩
      simp [releaseList, hm, hu₂, hu₁]

theorem releaseList_mem
    (rel : String → RunState → RunState × Option String)
    (hrel : ∀ d t, ∃ u, ((rel d t).1).released = t.released ++ u)
    (hmem : ∀ d t, (rel d t).2 = none → d ∈ ((rel d t).1).released) :
    ∀ (l : List String) (s : RunState), (releaseList rel l s).2 = none →
      ∀ d ∈ l, d ∈ ((releaseList rel l s).1).released := by
  intro l
  induction l with
  | nil => intro s _ d hd; simp at hd
  | cons c cs ih =>
    intro s hnone d hd
    rcases hm : rel c s with ⟨s₁, e₁⟩
    cases e₁ with
    | some e => simp [releaseList, hm] at hnone
    | none =>
      have hrest : releaseList rel (c :: cs) s = releaseList rel cs s₁ := by
        simp [releaseList, hm]
      rw [hrest] at hnone ⊢
      rcases List.mem_cons.mp hd with hdc | hdcs
      · subst hdc
        have hds : d ∈ s₁.released := by
          have := hmem d s (by rw [hm])
          rw [hm] at this
          exact this
        obtain ⟨u, hu⟩ := releaseList_released_ext rel hrel cs s₁
        rw [hu]
        exact List.mem_append_left _ hds
      · exact ih s₁ hnone d hdcs

theorem releaseList_proposal
    (rel : String → RunState → RunState × Option String)
    (hrel : ∀ d t, ((rel d t).1).proposal = t.proposal) :
    ∀ (l : List String) (s : RunState),
      ((releaseList rel l s).1).proposal = s.proposal := by
  intro l
  induction l with
  | nil => intro s; rfl
  | cons c cs ih =>
    intro s
    rcases hm : rel c s with ⟨s₁, e₁⟩
    have h₁ : s₁.proposal = s.proposal := by
      have := hrel c s
      rw [hm] at this
      exact this
    cases e₁ with
    | some e => simpa [releaseList, hm] using h₁
    | none => simp [releaseList, hm, ih s₁, h₁]

theorem release_released_ext (env : Env) :
    ∀ (fuel : Nat) (n : String) (s : RunState),
      ∃ u, ((release env fuel n s).1).released = s.released ++ u := by
  intro fuel
  induction fuel with
  | zero => intro n s; exact ⟨[], by simp [release]⟩
  | succ fuel ih =>
    intro n s
    by_cases hmem : n ∈ s.released
    · exact ⟨[], by simp [release, hmem]⟩
    · obtain ⟨u₁, hu₁⟩ := releaseList_released_ext (fun d t => release env fuel d t)
        (fun d t => ih d t) (env.deps n) s
      rcases hl : releaseList (fun d t => release env fuel d t) (env.deps n) s with ⟨s₁, e₁⟩
      simp only [hl] at hu₁
      cases e₁ with
      | some e => exact ⟨u₁, by simp [release, hmem, hl, hu₁]⟩
      | none =>
        rcases hlink : linkAll s₁.addresses (env.deps n) with _ | e
        · rcases hstep : releaseDeployStep env n s₁ with ⟨s₂, e₂⟩
          have h₂ : s₂.released = s₁.released := by
            have := releaseDeployStep_released env n s₁
            rw [hstep] at this
            exact this
          cases e₂ with
          | some e =>
            exact ⟨u₁, by simp [release, hmem, hl, hlink, hstep, h₂, hu₁]⟩
          | none =>
            exact ⟨u₁ ++ [n], by simp [release, hmem, hl, hlink, hstep, h₂, hu₁]⟩
        · exact ⟨u₁, by simp [release, hmem, hl, hlink, hu₁]⟩

theorem release_self_mem (env : Env) (fuel : Nat) (n : String) (s : RunState)
    (h : (release env fuel n s).2 = none) :
    n ∈ ((release env fuel n s).1).released := by
  cases fuel with
  | zero => simp [release] at h
  | succ fuel =>
    by_cases hmem : n ∈ s.released
    · simp [release, hmem]
    · rcases hl : releaseList (fun d t => release env fuel d t) (env.deps n) s with ⟨s₁, e₁⟩
      cases e₁ with
      | some e => simp [release, hmem, hl] at h
      | none =>
        rcases hlink : linkAll s₁.addresses (env.deps n) with _ | e
        · rcases hstep : releaseDeployStep env n s₁ with ⟨s₂, e₂⟩
          cases e₂ with
          | some e => simp [release, hmem, hl, hlink, hstep] at h
          | none => simp [release, hmem, hl, hlink, hstep]
        · simp [release, hmem, hl, hlink] at h

theorem goodOrder_append (env : Env) (l : List String) (n : String) :
    goodOrder env (l ++ [n]) = true ↔
      ((∀ d ∈ env.deps n, d ∈ l) ∧ goodOrder env l = true) := by
  simp [goodOrder, goodRevB, List.reverse_append, List.all_eq_true, List.mem_reverse]

theorem releaseList_good (env : Env)
    (rel : String → RunState → RunState × Option String)
    (hgood : ∀ d t, goodOrder env t.released = true → (rel d t).2 = none →
      goodOrder env ((rel d t).1).released = true) :
    ∀ (l : List String) (s : RunState), goodOrder env s.released = true →
      (releaseList rel l s).2 = none →
      goodOrder env ((releaseList rel l s).1).released = true := by
  intro l
  induction l with
  | nil => intro s hg _; simpa [releaseList] using hg
  | cons c cs ih =>
    intro s hg hnone
    rcases hm : rel c s with ⟨s₁, e₁⟩
    cases e₁ with
    | some e => simp [releaseList, hm] at hnone
    | none =>
      have hrest : releaseList rel (c :: cs) s = releaseList rel cs s₁ := by
        simp [releaseList, hm]
      rw [hrest] at hnone ⊢
      have hg₁ : goodOrder env s₁.released = true := by
        have := hgood c s hg (by rw [hm])
        rw [hm] at this
        exact this
      exact ih s₁ hg₁ hnone

theorem release_good (env : Env) :
    ∀ (fuel : Nat) (n : String) (s : RunState), goodOrder env s.released = true →
      (release env fuel n s).2 = none →
      goodOrder env ((release env fuel n s).1).released = true := by
  intro fuel
  induction fuel with
  | zero => intro n s _ h; simp [release] at h
  | succ fuel ih =>
    intro n s hg h
    by_cases hmem : n ∈ s.released
    · simpa [release, hmem] using hg
    · rcases hl : releaseList (fun d t => release env fuel d t) (env.deps n) s with ⟨s₁, e₁⟩
      cases e₁ with
      | some e => simp [release, hmem, hl] at h
      | none =>
        have hg₁ : goodOrder env s₁.released = true := by
          have := releaseList_good env (fun d t => release env fuel d t)
            (fun d t => ih d t) (env.deps n) s hg (by rw [hl])
          rw [hl] at this
          exact this
        have hdeps : ∀ d ∈ env.deps n, d ∈ s₁.released := by
          intro d hd
          have := releaseList_mem (fun d t => release env fuel d t)
            (fun d t => release_released_ext env fuel d t)
            (fun d t => release_self_mem env fuel d t)
            (env.deps n) s (by rw [hl]) d hd
          rw [hl] at this
          exact this
        rcases hlink : linkAll s₁.addresses (env.deps n) with _ | e
        · rcases hstep : releaseDeployStep env n s₁ with ⟨s₂, e₂⟩
          have h₂ : s₂.released = s₁.released := by
            have := releaseDeployStep_released env n s₁
            rw [hstep] at this
            exact this
          cases e₂ with
          | some e => simp [release, hmem, hl, hlink, hstep] at h
          | none =>
            have : goodOrder env (s₂.released ++ [n]) = true := by
              rw [h₂]
              exact (goodOrder_append env s₁.released n).mpr ⟨hdeps, hg₁⟩
            simpa [release, hmem, hl, hlink, hstep] using this
        · simp [release, hmem, hl, hlink] at h

/-- C4: calling `release` again on a unit after a completed (error-free) call is a
no-op — the second call returns the first call's state unchanged (address table,
released set and proposal all identical) with no error. -/
theorem release_idempotent (env : Env) (fuel fuel2 : Nat) (x : String) (s : RunState)
    (h : (release env fuel x s).2 = none) :
    release env (fuel2 + 1) x ((release env fuel x s).1) =
      ((release env fuel x s).1, none) := by
  have hx := release_self_mem env fuel x s h
  simp [release, hx]

/-- Witness for C4: releasing `A` a second time returns the state of the first
release untouched. -/
theorem release_idempotent_witness :
    release sampleEnv (0 + 1) "A" ((release sampleEnv 3 "A" sampleState).1) =
      ((release sampleEnv 3 "A" sampleState).1, none) :=
  release_idempotent sampleEnv 3 0 "A" sampleState (by decide)

theorem traverseContracts_good (env : Env) (fuel : Nat) :
    ∀ (l : List String) (s : RunState), goodOrder env s.released = true →
      (traverseContracts env fuel l s).2 = none →
      goodOrder env ((traverseContracts env fuel l s).1).released = true := by
  intro l
  induction l with
  | nil => intro s hg _; simpa [traverseContracts] using hg
  | cons c cs ih =>
    intro s hg hnone
    by_cases hc : (isCoreContract env c && isProxiedContract env c) = true
    · rcases hr : release env fuel c s with ⟨s₁, e₁⟩
      cases e₁ with
      | some e => simp [traverseContracts, hc, hr] at hnone
      | none =>
        have hg₁ : goodOrder env s₁.released = true := by
          have := release_good env fuel c s hg (by rw [hr])
          rw [hr] at this
          exact this
        have hrest : traverseContracts env fuel (c :: cs) s =
            traverseContracts env fuel cs s₁ := by
          simp [traverseContracts, hc, hr]
        rw [hrest] at hnone ⊢
        exact ih s₁ hg₁ hnone
    · have hrest : traverseContracts env fuel (c :: cs) s =
          traverseContracts env fuel cs s := by
        simp [traverseContracts, hc]
      rw [hrest] at hnone ⊢
      exact ih s hg hnone

/-- C3: in every error-free run of the orchestrator, the released order is
dependency-correct: reading the released list in the order units were marked
Released, every direct dependency of a unit occurs strictly before the unit
itself (each dependency is fully released before its dependent). -/
theorem runRelease_dependency_order (env : Env) (fuel : Nat) (contracts : List String)
    (reg : String → String) (lib : List (String × String))
    (h : (runRelease env fuel contracts reg lib).2 = none) :
    goodOrder env ((runRelease env fuel contracts reg lib).1).released = true := by
  rcases ht : traverseContracts env fuel contracts
      ⟨ContractAddresses.create contracts reg lib, [], []⟩ with ⟨s, e⟩
  cases e with
  | some e => simp [runRelease, ht] at h
  | none =>
    have hs : goodOrder env s.released = true := by
      have := traverseContracts_good env fuel contracts
        ⟨ContractAddresses.create contracts reg lib, [], []⟩ rfl (by rw [ht])
      rw [ht] at this
      exact this
    simpa [runRelease, ht, finalizeRun] using hs

/-- Witness for C3: a concrete run releasing `Governance`, then library `B`, then
`A` (which depends on `B`) yields a dependency-correct released order. -/
theorem runRelease_dependency_order_witness :
    goodOrder sampleEnv ((runRelease sampleEnv 5 ["Governance", "A"]
      (fun n => if n = "Governance" then "0xGOV" else NULL_ADDRESS) []).1).released = true :=
  runRelease_dependency_order sampleEnv 5 ["Governance", "A"]
    (fun n => if n = "Governance" then "0xGOV" else NULL_ADDRESS) [] (by decide)

/-! ## Lemmas for the Governance release scenario -/

theorem releaseDeployStep_proposal_gov (env : Env)
    (H : ∀ n, (mapFind env.report.contracts n).isSome → n = "Governance")
    (HG : shouldDeployProxy env.report "Governance" = true) :
    ∀ (n : String) (s : RunState), ((releaseDeployStep env n s).1).proposal = s.proposal := by
  intro n s
  unfold releaseDeployStep
  split_ifs with h1 h2
  · have hn := H n h1
    subst hn
    obtain ⟨e, he⟩ := deployCoreContract_governance env s HG
    rw [he]
  · exact deployLibrary_proposal env n s
  · rfl

theorem release_proposal_gov (env : Env)
    (H : ∀ n, (mapFind env.report.contracts n).isSome → n = "Governance")
    (HG : shouldDeployProxy env.report "Governance" = true) :
    ∀ (fuel : Nat) (n : String) (s : RunState),
      ((release env fuel n s).1).proposal = s.proposal := by
  intro fuel
  induction fuel with
  | zero => intro n s; simp [release]
  | succ fuel ih =>
    intro n s
    by_cases hmem : n ∈ s.released
    · simp [release, hmem]
    · rcases hl : releaseList (fun d t => release env fuel d t) (env.deps n) s with ⟨s₁, e₁⟩
      have h₁ : s₁.proposal = s.proposal := by
        have := releaseList_proposal (fun d t => release env fuel d t)
          (fun d t => ih d t) (env.deps n) s
        rw [hl] at this
        simpa using this
      cases e₁ with
      | some e => simp [release, hmem, hl, h₁]
      | none =>
        rcases hlink : linkAll s₁.addresses (env.deps n) with _ | e
        · rcases hstep : releaseDeployStep env n s₁ with ⟨s₂, e₂⟩
          have h₂ : s₂.proposal = s₁.proposal := by
            have := releaseDeployStep_proposal_gov env H HG n s₁
            rw [hstep] at this
            simpa using this
          cases e₂ with
          | some e => simp [release, hmem, hl, hlink, hstep, h₂, h₁]
          | none => simp [release, hmem, hl, hlink, hstep, h₂, h₁]
        · simp [release, hmem, hl, hlink, h₁]

theorem release_gov_fails (env : Env)
    (HG : shouldDeployProxy env.report "Governance" = true) :
    ∀ (fuel : Nat) (s : RunState), "Governance" ∉ s.released →
      ((release env fuel "Governance" s).2).isSome := by
  intro fuel s hmem
  cases fuel with
  | zero => simp [release]
  | succ fuel =>
    rcases hl : releaseList (fun d t => release env fuel d t)
        (env.deps "Governance") s with ⟨s₁, e₁⟩
    cases e₁ with
    | some e => simp [release, hmem, hl]
    | none =>
      rcases hlink : linkAll s₁.addresses (env.deps "Governance") with _ | e
      · have hsome := shouldDeployProxy_mapFind_isSome env.report "Governance" HG
        obtain ⟨e, he⟩ := deployCoreContract_governance env s₁ HG
        have hstep : releaseDeployStep env "Governance" s₁ = (s₁, some e) := by
          simp [releaseDeployStep, hsome, he]
        simp [release, hmem, hl, hlink, hstep]
      · simp [release, hmem, hl, hlink]

/-- C2: when the report entry for `Governance` shows a non-empty storage diff (or a
`NewContract` marker) and `Governance` is the only unit flagged in the report's
contract map, releasing `Governance` always raises a fatal error and appends
nothing: starting from an empty proposal, the proposal is still empty afterwards. -/
theorem release_governance_storage_guard (env : Env) (fuel : Nat) (s : RunState)
    (H : ∀ n, (mapFind env.report.contracts n).isSome → n = "Governance")
    (HG : shouldDeployProxy env.report "Governance" = true)
    (hmem : "Governance" ∉ s.released) (hp : s.proposal = []) :
    ((release env fuel "Governance" s).2).isSome
    ∧ ((release env fuel "Governance" s).1).proposal = [] := by
  refine ⟨release_gov_fails env HG fuel s hmem, ?_⟩
  rw [release_proposal_gov env H HG fuel "Governance" s, hp]

/-- Witness for C2: a concrete report flagging only `Governance`, with a storage
change: the release errors and the proposal stays empty. -/
theorem release_governance_storage_guard_witness :
    ((release {sampleEnv with report := ⟨[("Governance", ⟨⟨["slotG"], []⟩⟩)], []⟩} 3
        "Governance" sampleState).2).isSome
    ∧ ((release {sampleEnv with report := ⟨[("Governance", ⟨⟨["slotG"], []⟩⟩)], []⟩} 3
        "Governance" sampleState).1).proposal = [] :=
  release_governance_storage_guard _ 3 sampleState
    (by
      intro n h
      by_cases hn : n = "Governance"
      · exact hn
      · simp [mapFind, hn] at h)
    (by decide) (by decide) rfl

theorem stableTokenExtraTxs_eq (s : RunState) :
    stableTokenExtraTxs s = stableTokenFixedSuffix := rfl

/-- C10: every run that completes the traversal without error emits a proposal
ending in the fixed four-transaction suffix appended after the traversal —
`SortedOracles.addOracle`, `GoldToken.transfer`, `Reserve.addExchangeSpender` and a
final `addOracle` entry — some of whose arguments are placeholders (`TODO`, or the
`undefined` produced by indexing the address container as a plain object). -/
theorem runRelease_fixed_suffix (env : Env) (fuel : Nat) (contracts : List String)
    (reg : String → String) (lib : List (String × String))
    (h : (runRelease env fuel contracts reg lib).2 = none) :
    ∃ p, ((runRelease env fuel contracts reg lib).1).proposal =
      p ++ stableTokenFixedSuffix := by
  rcases ht : traverseContracts env fuel contracts
      ⟨ContractAddresses.create contracts reg lib, [], []⟩ with ⟨s, e⟩
  cases e with
  | some e => simp [runRelease, ht] at h
  | none =>
    refine ⟨s.proposal, ?_⟩
    simp [runRelease, ht, finalizeRun, stableTokenExtraTxs_eq]

/-- Witness for C10: the empty traversal emits exactly the fixed suffix. -/
theorem runRelease_fixed_suffix_witness :
    ∃ p, ((runRelease sampleEnv 1 [] (fun _ => NULL_ADDRESS) []).1).proposal =
      p ++ stableTokenFixedSuffix :=
  runRelease_fixed_suffix sampleEnv 1 [] (fun _ => NULL_ADDRESS) [] (by decide)
